import Mathlib

/-!
# Verification of the Behavior Rubric app core logic

Shallow embedding of `src/behavior_rubric_app_react_single_file.jsx`.

Modelling conventions:
* JS objects used as string-keyed dictionaries (the scoring matrix, its rows,
  `perPeriodTotals`, parsed JSON objects) are association lists
  `List (String × _)`.  `getKey` models property read (`obj[k]`, `undefined`
  becomes `none`); `setKey` models property write / object spread
  `{...obj, [k]: v}` (an existing key keeps its position and gets the new
  value, a new key is appended — JS insertion-order semantics).
* JS `null` stored in a matrix cell is `Option Int`'s `none`; a missing cell
  (JS `undefined`) is the outer `none` of `getKey`, so a cell read has type
  `Option (Option Int)`.
* `NaN` produced by `parseInt` on non-numeric text is modelled by `Option`:
  `parseInt` returns `none` where the JS value is `NaN`.
* React `setState` calls inside one event handler are modelled as applied
  synchronously in call order (single-threaded event loop, no concurrency in
  the app).
-/

set_option autoImplicit false

namespace BehaviorRubric

/-- Property read on a string-keyed JS object modelled as an association
list: `obj[k]`, with `none` for JS `undefined` (absent key). -/
def getKey {α : Type} : List (String × α) → String → Option α
  | [], _ => none
  | (k', v) :: rest, k => if k' = k then some v else getKey rest k

/-- Property write `{...obj, [k]: v}` / `obj[k] = v` on a string-keyed JS
object: the first occurrence of an existing key keeps its position and is
given the new value; a fresh key is appended (JS insertion order). -/
def setKey {α : Type} : List (String × α) → String → α → List (String × α)
  | [], k, v => [(k, v)]
  | (k', v') :: rest, k, v =>
      if k' = k then (k, v) :: rest else (k', v') :: setKey rest k v

/-- `const clamp = (n, min, max) => Math.max(min, Math.min(max, n));`
(source line 17).  On actual numbers (`NaN` handled separately by callers). -/
def clamp (n lo hi : Int) : Int := max lo (min hi n)

/-- JS `parseInt(s, 10)`: skip leading whitespace, optional sign, then the
longest prefix of decimal digits; `none` models the `NaN` result when no
digit is found. -/
def parseInt (s : String) : Option Int :=
  let ws : List Char :=
    s.data.dropWhile fun c => c = ' ' ∨ c = '\t' ∨ c = '\n' ∨ c = '\r'
  let signed : Bool × List Char :=
    match ws with
    | '-' :: rest => (true, rest)
    | '+' :: rest => (false, rest)
    | rest => (false, rest)
  let ds : List Char := signed.2.takeWhile Char.isDigit
  if ds.isEmpty then none
  else
    let n : Nat := ds.foldl (fun acc c => acc * 10 + (c.toNat - '0'.toNat)) 0
    some (if signed.1 then -(n : Int) else (n : Int))

/-- One element of `settings.categories` / `settings.periods` /  `students`:
a JS object `{id, name}` (ids produced by `uid()`; `ReorderableList` calls
these `items`). -/
structure Item where
  id : String
  name : String
deriving DecidableEq, Repr

/-- The `settings` state object, fields in `DEFAULT_SETTINGS` insertion
order (source lines 41–63): `scaleMax`, `scaleLabels`, `categories`,
`periods`, `goalPoints`.  `scaleLabels` keys are JS object keys, i.e.
strings ("0", "1", ...). -/
structure Settings where
  scaleMax : Int
  scaleLabels : List (String × String)
  categories : List Item
  periods : List Item
  goalPoints : Int
deriving DecidableEq, Repr

/-- A matrix row: `matrix[periodId]`, mapping categoryId to score-or-null. -/
abbrev Row := List (String × Option Int)

/-- The active record's `matrix`: periodId → categoryId → score (0..scaleMax
or null). -/
abbrev Matrix := List (String × Row)

/-- Two-level matrix read `record.matrix?.[p]?.[c]` collapsed to the score:
`some v` when a number is stored, `none` when the cell is null or missing
(the totals loop treats both alike, source line 158–159). -/
def cellScore (m : Matrix) (p c : String) : Option Int :=
  match getKey m p with
  | none => none
  | some row =>
    match getKey row c with
    | none => none
    | some x => x

/-- Two-level matrix read distinguishing a missing cell (`none`) from a
stored null (`some none`) and a stored number (`some (some v)`). -/
def cellGet (m : Matrix) (p c : String) : Option (Option Int) :=
  match getKey m p with
  | none => none
  | some row => getKey row c

/-- The value `setScore` stores into `matrix[periodId][categoryId]` (source
lines 132–147): `val === "" ? null : clamp(parseInt(val, 10), 0,
settings.scaleMax)`, with `Number.isNaN(v) ? null : v` turning a failed
parse into null. -/
def storedScore (raw : String) (scaleMax : Int) : Option Int :=
  if raw = "" then none
  else
    match parseInt raw with
    | none => none
    | some n => some (clamp n 0 scaleMax)

/-- The value stored into `settings.goalPoints` by the Daily Point Goal
input's onChange (source line 404):
`clamp(parseInt(e.target.value || 0, 10), 0, 999)`; an empty input falls
back to `0` via `|| 0`; `none` models storing `NaN` (only possible for a
non-empty non-numeric string, which a `type="number"` input never yields). -/
def goalPointsVal (raw : String) : Option Int :=
  (parseInt (if raw = "" then "0" else raw)).map fun n => clamp n 0 999

/-- The value stored into `settings.scaleMax` by the Max score per cell
input's onChange (source line 413):
`clamp(parseInt(e.target.value || 0, 10), 1, 10)`. -/
def scaleMaxVal (raw : String) : Option Int :=
  (parseInt (if raw = "" then "0" else raw)).map fun n => clamp n 1 10

/-- Inner loop of the reconciliation effect (source lines 306–308):
`settings.categories.forEach((c) => { if (!(c.id in nextMatrix[p.id]))
nextMatrix[p.id][c.id] = null; })` — present keys (even with a null value)
are left alone, missing category keys are appended with value null. -/
def reconcileRow : List Item → Row → Row
  | [], r => r
  | c :: cs, r =>
    reconcileRow cs
      (match getKey r c.id with
       | some _ => r
       | none => r ++ [(c.id, none)])

/-- Outer loop of the reconciliation effect (source lines 304–309):
`settings.periods.forEach((p) => { if (!nextMatrix[p.id]) nextMatrix[p.id]
= {}; ... })` — each period's row is defaulted to `{}` when absent and then
completed category by category. -/
def reconcilePeriods (cats : List Item) : List Item → Matrix → Matrix
  | [], m => m
  | p :: ps, m =>
    reconcilePeriods cats ps
      (setKey m p.id
        (reconcileRow cats
          (match getKey m p.id with
           | some r => r
           | none => ([] : Row))))

/-- The reconciliation step of §4.2 as run by the effect on source lines
299–312: bring the active record's matrix into the shape of the current
settings, adding only missing cells (as null), never touching present
ones. -/
def reconcileMatrix (s : Settings) (m : Matrix) : Matrix :=
  reconcilePeriods s.categories s.periods m

/-- Row of the freshly built matrix: `matrix[p.id] = {};
settings.categories.forEach((c) => (matrix[p.id][c.id] = null));` used both
at lazy record creation (source lines 105–109) and by the settings-import
rebuild (source lines 258–264). -/
def mkNullRow : List Item → Row → Row
  | [], r => r
  | c :: cs, r => mkNullRow cs (setKey r c.id none)

/-- Fresh all-null matrix over the given periods and categories (source
lines 105–109 and 258–264). -/
def mkNullMatrixAux (cats : List Item) : List Item → Matrix → Matrix
  | [], m => m
  | p :: ps, m => mkNullMatrixAux cats ps (setKey m p.id (mkNullRow cats []))

/-- Fresh all-null matrix for the given settings. -/
def mkNullMatrix (s : Settings) : Matrix :=
  mkNullMatrixAux s.categories s.periods []

/-- Result of the totals `useMemo` (source lines 150–174). `perPeriodTotals`
is the JS object `per` keyed by period id with `{total, max}` values. -/
structure TotalsResult where
  totalPoints : Int
  maxPoints : Int
  percent : Int
  perPeriodTotals : List (String × (Int × Int))
deriving DecidableEq, Repr

/-- `Math.round` on the exact rational value: JS rounds half toward `+∞`,
i.e. `Math.round(x) = ⌊x + 0.5⌋`. -/
def mathRound (q : ℚ) : Int := ⌊q + 1/2⌋

/-- Inner accumulation of the totals `useMemo` (source lines 157–163): over
the categories, `t += val` for non-null non-undefined cells and
`m += settings.scaleMax` unconditionally. -/
def totalsCats (m : Matrix) (pid : String) (scaleMax : Int) :
    List Item → Int × Int → Int × Int
  | [], tm => tm
  | c :: cs, tm =>
    totalsCats m pid scaleMax cs
      (tm.1 + ((cellScore m pid c.id).getD 0), tm.2 + scaleMax)

/-- Outer accumulation of the totals `useMemo` (source lines 154–167):
running daily total, running daily max, and the `per` object. -/
def totalsPeriods (s : Settings) (m : Matrix) :
    List Item → Int × Int × List (String × (Int × Int)) →
    Int × Int × List (String × (Int × Int))
  | [], acc => acc
  | p :: ps, acc =>
    totalsPeriods s m ps
      (let tm := totalsCats m p.id s.scaleMax s.categories (0, 0)
       (acc.1 + tm.1, acc.2.1 + tm.2, setKey acc.2.2 p.id tm))

/-- The Derived Totals Calculator (source lines 150–174): per-period and
daily totals/maxima plus `percent = max > 0 ? Math.round((total / max) *
100) : 0`. -/
def computeTotals (s : Settings) (m : Matrix) : TotalsResult :=
  let acc := totalsPeriods s m s.periods (0, 0, [])
  { totalPoints := acc.1
    maxPoints := acc.2.1
    percent :=
      if 0 < acc.2.1 then mathRound (((acc.1 : ℚ) / (acc.2.1 : ℚ)) * 100)
      else 0
    perPeriodTotals := acc.2.2 }

/-- Goal attainment as rendered on source lines 383 and 515:
`totalPoints >= settings.goalPoints`. -/
def goalMet (totalPoints goalPoints : Int) : Bool :=
  goalPoints ≤ totalPoints

/-- The structured application state the claims range over: current
settings, roster, selected student id (`none` models JS `undefined`), and
the active record's matrix. -/
structure AppState where
  settings : Settings
  students : List Item
  studentId : Option String
  matrix : Matrix
deriving DecidableEq, Repr

/-- `setScore(periodId, categoryId, val)` (source lines 132–147): writes
`storedScore` into the active record's matrix via nested object spreads
(a spread of an undefined row yields an empty object). -/
def applySetScore (p c raw : String) (st : AppState) : AppState :=
  { st with
    matrix :=
      setKey st.matrix p
        (setKey ((getKey st.matrix p).getD []) c
          (storedScore raw st.settings.scaleMax)) }

/-- The Daily Point Goal input's onChange (source line 404) with an input
value whose parse succeeded (see `goalPointsVal`). -/
def applySetGoalPoints (n : Int) (st : AppState) : AppState :=
  { st with settings := { st.settings with goalPoints := n } }

/-- The Max score per cell input's onChange (source line 413) with an input
value whose parse succeeded (see `scaleMaxVal`). -/
def applySetScaleMax (n : Int) (st : AppState) : AppState :=
  { st with settings := { st.settings with scaleMax := n } }

/-- `addCategory()` (source lines 291–293); `uid()` is random, so the fresh
id is a parameter. -/
def applyAddCategory (id : String) (st : AppState) : AppState :=
  { st with
    settings :=
      { st.settings with
        categories := st.settings.categories ++ [⟨id, "New Category"⟩] } }

/-- `addPeriod()` (source lines 294–296). -/
def applyAddPeriod (id : String) (st : AppState) : AppState :=
  { st with
    settings :=
      { st.settings with
        periods := st.settings.periods ++ [⟨id, "New Period"⟩] } }

/-- The reconciliation effect (source lines 299–312) applied to the active
record. -/
def applyReconcile (st : AppState) : AppState :=
  { st with matrix := reconcileMatrix st.settings st.matrix }

/-- `removeStudent(id)` (source lines 284–288): the `confirm(...)` result is
the `ok` parameter; declining leaves the state untouched.  On confirmation
the roster is filtered and, when the removed student was selected, the
selection becomes `students[0]?.id` computed from the roster *before*
removal (the `students` closure variable). -/
def applyRemoveStudent (ok : Bool) (id : String) (st : AppState) : AppState :=
  if !ok then st
  else
    { st with
      students := st.students.filter fun s => s.id != id
      studentId :=
        if st.studentId = some id then (st.students.head?).map Item.id
        else st.studentId }

/-- The settings-import handler (source lines 248–272) in the case of a
payload that decodes to a well-formed `Settings`: `setSettings(parsed)`
followed by the rebuild `setEntries` that replaces the active record's
matrix with a fresh all-null matrix in the new shape (source lines
255–265). -/
def applyImportValid (s : Settings) (st : AppState) : AppState :=
  { st with settings := s, matrix := mkNullMatrix s }

/-- `DEFAULT_SETTINGS` (source lines 41–63); `uid()` ids are random, the
concrete strings here stand in for one possible draw. -/
def defaultSettings : Settings :=
  { scaleMax := 3
    scaleLabels :=
      [("0", "Not Met"), ("1", "Emerging"), ("2", "Meets"), ("3", "Exceeds")]
    categories :=
      [⟨"c1", "Be Respectful"⟩, ⟨"c2", "Be Responsible"⟩,
       ⟨"c3", "Be Safe"⟩, ⟨"c4", "On Task"⟩]
    periods :=
      [⟨"p1", "Arrival"⟩, ⟨"p2", "Morning Block"⟩, ⟨"p3", "Lunch/Recess"⟩,
       ⟨"p4", "Afternoon Block"⟩, ⟨"p5", "Dismissal"⟩]
    goalPoints := 24 }

/-- The app state after first load with empty storage: default roster
(source lines 68–73), default settings, the first student selected, and the
lazily created all-null record for the current (date, student) pair (source
lines 102–126). -/
def defaultState : AppState :=
  { settings := defaultSettings
    students := [⟨"s1", "Seth Example"⟩]
    studentId := some "s1"
    matrix := mkNullMatrix defaultSettings }

/-- One user-triggered state transition of the app: each constructor is one
of the mutating handlers modelled above (inputs that the handlers parse are
constrained to parses that succeed, as delivered by the corresponding
`type="number"` inputs). -/
inductive AppStep : AppState → AppState → Prop
  | score (st : AppState) (p c raw : String) :
      AppStep st (applySetScore p c raw st)
  | goalPoints (st : AppState) (raw : String) (n : Int)
      (h : goalPointsVal raw = some n) :
      AppStep st (applySetGoalPoints n st)
  | scaleMax (st : AppState) (raw : String) (n : Int)
      (h : scaleMaxVal raw = some n) :
      AppStep st (applySetScaleMax n st)
  | addCategory (st : AppState) (id : String) :
      AppStep st (applyAddCategory id st)
  | addPeriod (st : AppState) (id : String) :
      AppStep st (applyAddPeriod id st)
  | reconcile (st : AppState) : AppStep st (applyReconcile st)
  | removeStudent (st : AppState) (ok : Bool) (id : String) :
      AppStep st (applyRemoveStudent ok id st)
  | importValid (st : AppState) (s : Settings) :
      AppStep st (applyImportValid s st)

/-- A state reachable from the default state by user actions. -/
def Reachable (st : AppState) : Prop :=
  Relation.ReflTransGen AppStep defaultState st

/-- Executable check of Invariant R2 over the active record: every stored
score is an integer in `[0, settings.scaleMax]`. -/
def r2Check (st : AppState) : Bool :=
  st.matrix.all fun pr =>
    pr.2.all fun cv =>
      match cv.2 with
      | none => true
      | some n => decide (0 ≤ n) && decide (n ≤ st.settings.scaleMax)

/-- A parsed JSON value as produced by `JSON.parse` (the app stores only
integer-valued numbers; later duplicate object keys are already resolved by
the parser, so field lists are read first-match). -/
inductive JValue : Type where
  | null : JValue
  | bool : Bool → JValue
  | num : Int → JValue
  | str : String → JValue
  | arr : List JValue → JValue
  | obj : List (String × JValue) → JValue

/-- JS property read `v.k` on a parsed JSON value: `none` models
`undefined` (non-objects have none of the app's named properties). -/
def getField : JValue → String → Option JValue
  | .obj fs, k => getKey fs k
  | _, _ => none

mutual

/-- JS string coercion of a value used as a computed object key
(`matrix[p.id]`): `String(v)`, with arrays joined by commas (null and
undefined elements joining as empty). -/
def jsToPropKey : JValue → String
  | .null => "null"
  | .bool b => cond b "true" "false"
  | .num n => toString n
  | .str s => s
  | .arr xs => jsArrJoin xs
  | .obj _ => "[object Object]"

/-- Comma join of `Array.prototype.toString`. -/
def jsArrJoin : List JValue → String
  | [] => ""
  | [JValue.null] => ""
  | [x] => jsToPropKey x
  | JValue.null :: xs => "," ++ jsArrJoin xs
  | x :: xs => jsToPropKey x ++ "," ++ jsArrJoin xs

end

/-- Reading `.id` off an array element: `none` models a thrown `TypeError`
(property access on `null`); `some none` models `undefined`; `some (some
v)` the present value. -/
def jsGetId : JValue → Option (Option JValue)
  | .null => none
  | .obj fs => some (getKey fs "id")
  | _ => some none

/-- The object key `elem.id` coerces to, `none` when the access throws. -/
def jsIdKey (v : JValue) : Option String :=
  (jsGetId v).map fun idv =>
    match idv with
    | none => "undefined"
    | some w => jsToPropKey w

/-- Inner loop of the import rebuild (source lines 261–263):
`parsed.categories.forEach((c) => { matrix[p.id][c.id] = null; })`;
`none` models a throw partway through. -/
def jsRowBuild : List JValue → Row → Option Row
  | [], r => some r
  | c :: cs, r =>
    match jsIdKey c with
    | none => none
    | some k => jsRowBuild cs (setKey r k none)

/-- Outer loop of the import rebuild (source lines 259–264) over the
elements of `parsed.periods`, with `parsed.categories` already known to be
an array. -/
def jsRebuild (cs : List JValue) : List JValue → Matrix → Option Matrix
  | [], m => some m
  | p :: ps, m =>
    match jsIdKey p with
    | none => none
    | some k =>
      match jsRowBuild cs [] with
      | none => none
      | some row => jsRebuild cs ps (setKey m k row)

/-- The matrix the import's `setEntries` updater builds from the raw
payload (source lines 256–265): `none` models a `TypeError` thrown inside
the updater (`parsed.periods.forEach` on a non-array, etc.).  When
`parsed.periods` is an empty array the inner `parsed.categories` access
never runs, so its shape is not checked. -/
def rebuildFromPayload (v : JValue) : Option Matrix :=
  match getField v "periods" with
  | some (.arr []) => some []
  | some (.arr ps) =>
    match getField v "categories" with
    | some (.arr cs) => jsRebuild cs ps []
    | _ => none
  | _ => none

/-- The only validation the import performs (source line 253):
`if (!parsed || typeof parsed !== "object") throw new Error("Bad JSON")` —
`null` is falsy, primitives are not of type "object", arrays and objects
pass. -/
def importCheckPasses : JValue → Bool
  | .arr _ => true
  | .obj _ => true
  | _ => false

/-- The JSON-level application state the import handler touches: the raw
`settings` value (`setSettings(parsed)` stores the parsed payload as-is)
and the active record's matrix. -/
structure JState where
  settings : JValue
  matrix : Matrix

/-- `importSettingsJSON` (source lines 248–272) after file read completion,
at the level of the parsed JSON tree (`none` payload = `JSON.parse` threw).
The `Bool` is whether the `alert("Invalid settings file")` fires.  State
updates are modelled in call order: `setSettings(parsed)` precedes the
rebuild, so a `TypeError` thrown while rebuilding (caught by the handler's
`try`) still leaves the settings replaced by the payload. -/
def jsImportSettings (text : Option JValue) (st : JState) : JState × Bool :=
  match text with
  | none => (st, true)
  | some v =>
    if importCheckPasses v then
      match rebuildFromPayload v with
      | some m => ({ settings := v, matrix := m }, false)
      | none => ({ st with settings := v }, true)
    else (st, true)

/-- `{id, name}` element as serialized by `JSON.stringify` (field insertion
order of the object literals on source lines 49–61, 276, 292, 295). -/
def encodeItem (e : Item) : JValue :=
  .obj [("id", .str e.id), ("name", .str e.name)]

/-- The settings JSON produced by `exportSettingsJSON` (source lines
235–246): `JSON.stringify(settings, null, 2)` serializes the settings
object with its fields in insertion order, as a JSON tree. -/
def encodeSettings (s : Settings) : JValue :=
  .obj
    [("scaleMax", .num s.scaleMax),
     ("scaleLabels", .obj (s.scaleLabels.map fun kv => (kv.1, .str kv.2))),
     ("categories", .arr (s.categories.map encodeItem)),
     ("periods", .arr (s.periods.map encodeItem)),
     ("goalPoints", .num s.goalPoints)]

/-- Decoding a `{id: string, name: string}` object back into an `Item`. -/
def decodeItem : JValue → Option Item
  | .obj fs =>
    match getKey fs "id", getKey fs "name" with
    | some (.str i), some (.str n) => some ⟨i, n⟩
    | _, _ => none
  | _ => none

/-- Decoding a list of items. -/
def decodeItems : List JValue → Option (List Item)
  | [] => some []
  | v :: vs =>
    match decodeItem v, decodeItems vs with
    | some e, some es => some (e :: es)
    | _, _ => none

/-- Decoding the scale-labels object (string values). -/
def decodeLabels : List (String × JValue) → Option (List (String × String))
  | [] => some []
  | (k, .str v) :: fs =>
    match decodeLabels fs with
    | some l => some ((k, v) :: l)
    | none => none
  | _ => none

/-- Reading a well-formed `Settings` value back out of a parsed settings
JSON tree (deep equality with a structured `Settings` value is
`decodeSettings j = some s`). -/
def decodeSettings (v : JValue) : Option Settings :=
  match getField v "scaleMax", getField v "scaleLabels",
      getField v "categories", getField v "periods",
      getField v "goalPoints" with
  | some (.num sm), some (.obj lfs), some (.arr cs), some (.arr ps),
      some (.num gp) =>
    match decodeLabels lfs, decodeItems cs, decodeItems ps with
    | some ls, some cats, some pers => some ⟨sm, ls, cats, pers, gp⟩
    | _, _, _ => none
  | _, _, _, _, _ => none

/-- A row contains an entry (possibly null) for every given category. -/
def rowHasAll (cats : List Item) (r : Row) : Prop :=
  ∀ c ∈ cats, (getKey r c.id).isSome

/-- A matrix contains, for every given period, a row covering all given
categories (the shape reconciliation establishes). -/
def matrixDone (cats ps : List Item) (m : Matrix) : Prop :=
  ∀ p ∈ ps, ∃ r, getKey m p.id = some r ∧ rowHasAll cats r

/-- Modelled from the spec (§4.1): the structural shape the spec requires
an imported settings payload to have — `{categories: sequence, periods:
sequence, scale, goalPoints}`.  Stated here only to compare the code's
actual check against it; the code never performs this check. -/
def specRequiredShape (v : JValue) : Bool :=
  (match getField v "categories" with
   | some (.arr _) => true
   | _ => false) &&
  (match getField v "periods" with
   | some (.arr _) => true
   | _ => false) &&
  ((getField v "scale").isSome || (getField v "scaleMax").isSome) &&
  (getField v "goalPoints").isSome

/-! ## Helper lemmas: association-list reads and writes -/

theorem getKey_setKey_self {α : Type} (l : List (String × α)) (k : String)
    (v : α) : getKey (setKey l k v) k = some v := by
  induction l with
  | nil => simp [setKey, getKey]
  | cons hd tl ih =>
    by_cases h : hd.1 = k
    · simp [setKey, h, getKey]
    · simp [setKey, h, getKey, ih]

theorem getKey_setKey_ne {α : Type} (l : List (String × α)) (k k' : String)
    (v : α) (h : k' ≠ k) : getKey (setKey l k v) k' = getKey l k' := by
  induction l with
  | nil => simp [setKey, getKey, Ne.symm h]
  | cons hd tl ih =>
    obtain ⟨a, b⟩ := hd
    by_cases hh : a = k
    · subst hh
      simp [setKey, getKey, Ne.symm h]
    · by_cases hk : a = k'
      · simp [setKey, hh, getKey, hk, h]
      · simp [setKey, hh, getKey, hk, ih]

theorem setKey_eq_of_getKey {α : Type} (l : List (String × α)) (k : String)
    (v : α) (h : getKey l k = some v) : setKey l k v = l := by
  induction l with
  | nil => simp [getKey] at h
  | cons hd tl ih =>
    obtain ⟨a, b⟩ := hd
    by_cases hh : a = k
    · subst hh
      simp only [getKey, if_true, Option.some.injEq, if_pos] at h
      cases h
      simp [setKey]
    · simp only [getKey, hh, if_false] at h
      simp [setKey, hh, ih h]

theorem getKey_append_left {α : Type} (l l' : List (String × α)) (k : String)
    (v : α) (h : getKey l k = some v) : getKey (l ++ l') k = some v := by
  induction l with
  | nil => simp [getKey] at h
  | cons hd tl ih =>
    by_cases hh : hd.1 = k
    · simp only [getKey, hh, if_pos rfl] at h ⊢
      exact h
    · simp only [getKey, hh, if_false] at h ⊢
      exact ih h

theorem getKey_append_right {α : Type} (l l' : List (String × α))
    (k : String) (h : getKey l k = none) :
    getKey (l ++ l') k = getKey l' k := by
  induction l with
  | nil => simp [getKey]
  | cons hd tl ih =>
    by_cases hh : hd.1 = k
    · simp [getKey, hh] at h
    · simp only [getKey, hh, if_false] at h ⊢
      exact ih h

theorem getKey_setKey_isSome {α : Type} (l : List (String × α))
    (k k' : String) (v : α) (h : (getKey l k').isSome) :
    (getKey (setKey l k v) k').isSome := by
  by_cases hk : k' = k
  · subst hk
    simp [getKey_setKey_self]
  · rwa [getKey_setKey_ne l k k' v hk]

theorem clamp_bounds (n lo hi : Int) (h : lo ≤ hi) :
    lo ≤ clamp n lo hi ∧ clamp n lo hi ≤ hi :=
  ⟨le_max_left _ _, max_le h (min_le_left _ _)⟩

/-! ## C4: score parsing and clamping in `setScore` -/

/-- C4: for every raw score input string and every scaleMax, `setScore`
stores unset (null) exactly when the input is empty or does not parse as an
integer (`parseInt` yields NaN), and otherwise stores the parsed integer
clamped into `[0, scaleMax]`; the stored value lands in the active record's
matrix cell; with scaleMax = 3, input "5" stores 3, "-1" stores 0, and ""
and "abc" store unset. -/
theorem claim_C4_score_clamping : ∀ (raw : String) (sm : Int),
    (storedScore raw sm = none ↔ (raw = "" ∨ parseInt raw = none))
    ∧ (∀ n : Int, parseInt raw = some n → raw ≠ "" →
        storedScore raw sm = some (clamp n 0 sm))
    ∧ (∀ (st : AppState) (p c : String),
        cellGet (applySetScore p c raw st).matrix p c
          = some (storedScore raw st.settings.scaleMax))
    ∧ storedScore "5" 3 = some 3 ∧ storedScore "-1" 3 = some 0
    ∧ storedScore "" 3 = none ∧ storedScore "abc" 3 = none := by
  intro raw sm
  refine ⟨?_, ?_, ?_, by decide, by decide, by decide, by decide⟩
  · by_cases he : raw = ""
    · simp [storedScore, he]
    · cases hp : parseInt raw with
      | none => simp [storedScore, he, hp]
      | some n => simp [storedScore, he, hp]
  · intro n hp he
    simp [storedScore, he, hp]
  · intro st p c
    simp [applySetScore, cellGet, getKey_setKey_self]

/-- Witness for C4 at raw = "5", scaleMax = 3, a concrete state. -/
theorem claim_C4_score_clamping_witness :
    storedScore "5" 3 = some (clamp 5 0 3)
    ∧ cellGet
        (applySetScore "p1" "c1" "5"
          { settings := defaultSettings, students := [], studentId := none,
            matrix := [] }).matrix "p1" "c1"
      = some (storedScore "5" 3) :=
  ⟨(claim_C4_score_clamping "5" 3).2.1 5 (by decide) (by decide),
   (claim_C4_score_clamping "5" 3).2.2.1
     { settings := defaultSettings, students := [], studentId := none,
       matrix := [] } "p1" "c1"⟩

/-! ## C7: goal attainment -/

/-- C7: goal attainment is `dailyTotal ≥ goalPoints`, with equality counting
as met: `goalMet 24 24 = true` and `goalMet 23 24 = false` for
goalPoints = 24. -/
theorem claim_C7_goal_evaluation : ∀ t g : Int,
    (goalMet t g = true ↔ g ≤ t)
    ∧ goalMet 24 24 = true ∧ goalMet 23 24 = false := by
  intro t g
  refine ⟨?_, by decide, by decide⟩
  simp [goalMet]

/-! ## C10: UI bounds on goalPoints and scaleMax -/

/-- C10: every edit of the goalPoints / scaleMax number inputs (whose value
is always the empty string or a numeric string) stores
`clamp(parseInt(value), 0, 999)` resp. `clamp(parseInt(value), 1, 10)`
(empty falls back to 0 via `|| 0`), so goalPoints ends up an integer in
[0, 999] and scaleMax an integer in [1, 10]. -/
theorem claim_C10_settings_bounds : ∀ raw : String,
    (raw = "" ∨ (parseInt raw).isSome) →
    ∃ g m : Int,
      goalPointsVal raw = some g ∧ 0 ≤ g ∧ g ≤ 999
      ∧ scaleMaxVal raw = some m ∧ 1 ≤ m ∧ m ≤ 10
      ∧ (∀ n : Int, parseInt raw = some n →
          g = clamp n 0 999 ∧ m = clamp n 1 10) := by
  intro raw h
  rcases h with he | hp
  · refine ⟨0, 1, ?_, by decide, by decide, ?_, by decide, by decide, ?_⟩
    · simp [goalPointsVal, he]
      decide
    · simp [scaleMaxVal, he]
      decide
    · intro n hn
      rw [he] at hn
      simp [show parseInt "" = none by decide] at hn
  · rw [Option.isSome_iff_exists] at hp
    obtain ⟨n, hn⟩ := hp
    have he : raw ≠ "" := by
      intro e
      rw [e] at hn
      simp [show parseInt "" = none by decide] at hn
    refine ⟨clamp n 0 999, clamp n 1 10, ?_, (clamp_bounds n 0 999 (by decide)).1,
      (clamp_bounds n 0 999 (by decide)).2, ?_,
      (clamp_bounds n 1 10 (by decide)).1, (clamp_bounds n 1 10 (by decide)).2, ?_⟩
    · simp [goalPointsVal, he, hn]
    · simp [scaleMaxVal, he, hn]
    · intro n' hn'
      rw [hn] at hn'
      cases hn'
      exact ⟨rfl, rfl⟩

/-- Witness for C10 at the out-of-range input "2000". -/
theorem claim_C10_settings_bounds_witness :
    ∃ g m : Int,
      goalPointsVal "2000" = some g ∧ 0 ≤ g ∧ g ≤ 999
      ∧ scaleMaxVal "2000" = some m ∧ 1 ≤ m ∧ m ≤ 10
      ∧ (∀ n : Int, parseInt "2000" = some n →
          g = clamp n 0 999 ∧ m = clamp n 1 10) :=
  claim_C10_settings_bounds "2000" (Or.inr (by decide))

/-! ## C9: selection after removing a student -/

/-- C9: confirming removal of the currently selected student sets the
selection to the id of the first element of the roster as it was before the
removal; hence removing the first (selected) student leaves the removed id
selected although it is no longer in the roster, and removing any other
selected student selects the surviving first student (who stays first). -/
theorem claim_C9_remove_student : ∀ (st : AppState) (id : String) (s0 : Item),
    st.studentId = some id → st.students.head? = some s0 →
    ((applyRemoveStudent true id st).studentId = some s0.id
     ∧ (s0.id = id →
         (applyRemoveStudent true id st).studentId = some id
         ∧ id ∉ (applyRemoveStudent true id st).students.map Item.id)
     ∧ (s0.id ≠ id →
         (applyRemoveStudent true id st).students.head? = some s0)) := by
  intro st id s0 hsel hhead
  have hfilter_not_mem :
      id ∉ (st.students.filter fun s => s.id != id).map Item.id := by
    intro hmem
    rw [List.mem_map] at hmem
    obtain ⟨s, hs, hid⟩ := hmem
    rw [List.mem_filter] at hs
    exact absurd hid (bne_iff_ne.mp hs.2)
  refine ⟨?_, ?_, ?_⟩
  · simp [applyRemoveStudent, hsel, hhead]
  · intro hfirst
    constructor
    · simp [applyRemoveStudent, hsel, hhead, hfirst]
    · simp [applyRemoveStudent]
  · intro hne
    cases hl : st.students with
    | nil => rw [hl] at hhead; simp at hhead
    | cons a t =>
      rw [hl] at hhead
      simp only [List.head?_cons, Option.some.injEq] at hhead
      subst hhead
      simp [applyRemoveStudent, hl, List.filter_cons, bne_iff_ne, hne]

/-- Witness for C9: roster [a, b] with a selected and removed — the stale id
"a" stays selected and is gone from the roster. -/
theorem claim_C9_remove_student_witness :
    (applyRemoveStudent true "a"
        { settings := defaultSettings,
          students := [⟨"a", "A"⟩, ⟨"b", "B"⟩],
          studentId := some "a", matrix := [] }).studentId = some "a"
    ∧ "a" ∉ (applyRemoveStudent true "a"
        { settings := defaultSettings,
          students := [⟨"a", "A"⟩, ⟨"b", "B"⟩],
          studentId := some "a", matrix := [] }).students.map Item.id :=
  (claim_C9_remove_student
    { settings := defaultSettings,
      students := [⟨"a", "A"⟩, ⟨"b", "B"⟩],
      studentId := some "a", matrix := [] } "a" ⟨"a", "A"⟩ rfl rfl).2.1 rfl

/-! ## Reconciliation lemmas (for C5, C2, C3) -/

theorem reconcileRow_getKey_some (cats : List Item) (r : Row) (cid : String)
    (x : Option Int) (h : getKey r cid = some x) :
    getKey (reconcileRow cats r) cid = some x := by
  induction cats generalizing r with
  | nil => exact h
  | cons c cs ih =>
    rw [reconcileRow]
    cases hc : getKey r c.id with
    | some y => exact ih r h
    | none => exact ih _ (getKey_append_left r [(c.id, none)] cid x h)

theorem reconcileRow_isSome (cats : List Item) (r : Row) (cid : String)
    (h : (getKey r cid).isSome) :
    (getKey (reconcileRow cats r) cid).isSome := by
  rw [Option.isSome_iff_exists] at h
  obtain ⟨x, hx⟩ := h
  rw [reconcileRow_getKey_some cats r cid x hx]
  rfl

theorem reconcileRow_getKey_of_none (cats : List Item) (r : Row)
    (cid : String) (h : getKey r cid = none) :
    getKey (reconcileRow cats r) cid = none
    ∨ getKey (reconcileRow cats r) cid = some none := by
  induction cats generalizing r with
  | nil => exact Or.inl h
  | cons c cs ih =>
    rw [reconcileRow]
    cases hc : getKey r c.id with
    | some y => exact ih r h
    | none =>
      by_cases hcc : c.id = cid
      · subst hcc
        refine Or.inr (reconcileRow_getKey_some cs _ c.id none ?_)
        rw [getKey_append_right r [(c.id, none)] c.id h]
        simp [getKey]
      · refine ih _ ?_
        rw [getKey_append_right r [(c.id, none)] cid h]
        simp [getKey, hcc]

theorem reconcileRow_hasAll (cats : List Item) (r : Row) :
    rowHasAll cats (reconcileRow cats r) := by
  induction cats generalizing r with
  | nil => intro c hc; simp at hc
  | cons c cs ih =>
    intro c' hc'
    rw [reconcileRow]
    rcases List.mem_cons.mp hc' with hc' | hc'
    · subst hc'
      cases hc : getKey r c'.id with
      | some y =>
        exact reconcileRow_isSome cs r c'.id (by rw [hc]; rfl)
      | none =>
        refine reconcileRow_isSome cs _ c'.id ?_
        rw [getKey_append_right r [(c'.id, none)] c'.id hc]
        simp [getKey]
    · cases hc : getKey r c.id with
      | some y => exact ih r c' hc'
      | none => exact ih _ c' hc'

theorem reconcileRow_eq_of_hasAll (cats : List Item) (r : Row)
    (h : rowHasAll cats r) : reconcileRow cats r = r := by
  induction cats with
  | nil => rfl
  | cons c cs ih =>
    rw [reconcileRow]
    have hc := h c (List.mem_cons_self c cs)
    rw [Option.isSome_iff_exists] at hc
    obtain ⟨y, hy⟩ := hc
    rw [hy]
    exact ih fun c' hc' => h c' (List.mem_cons_of_mem c hc')

theorem reconcilePeriods_preserves_done (cats : List Item)
    (ps : List Item) (m : Matrix) (k : String) (r : Row)
    (hk : getKey m k = some r) (hr : rowHasAll cats r) :
    getKey (reconcilePeriods cats ps m) k = some r := by
  induction ps generalizing m with
  | nil => exact hk
  | cons p ps ih =>
    rw [reconcilePeriods]
    by_cases hp : p.id = k
    · subst hp
      have h1 : setKey m p.id (reconcileRow cats
          (match getKey m p.id with | some r => r | none => ([] : Row)))
          = m := by
        simp only [hk]
        rw [reconcileRow_eq_of_hasAll cats r hr]
        exact setKey_eq_of_getKey m p.id r hk
      rw [h1]
      exact ih m hk
    · refine ih _ ?_
      rw [getKey_setKey_ne m p.id k _ fun e => hp e.symm]
      exact hk

theorem reconcilePeriods_done (cats ps : List Item) (m : Matrix) :
    matrixDone cats ps (reconcilePeriods cats ps m) := by
  induction ps generalizing m with
  | nil => intro p hp; simp at hp
  | cons p ps ih =>
    intro p' hp'
    rw [reconcilePeriods]
    rcases List.mem_cons.mp hp' with hp' | hp'
    · subst hp'
      refine ⟨reconcileRow cats
          (match getKey m p'.id with | some r => r | none => ([] : Row)),
        ?_, reconcileRow_hasAll cats _⟩
      exact reconcilePeriods_preserves_done cats ps _ p'.id _
        (by rw [getKey_setKey_self]) (reconcileRow_hasAll cats _)
    · exact ih _ p' hp'

theorem reconcilePeriods_eq_of_done (cats ps : List Item) (m : Matrix)
    (h : matrixDone cats ps m) : reconcilePeriods cats ps m = m := by
  induction ps generalizing m with
  | nil => rfl
  | cons p ps ih =>
    rw [reconcilePeriods]
    obtain ⟨r, hr, hall⟩ := h p (List.mem_cons_self p ps)
    rw [hr, reconcileRow_eq_of_hasAll cats r hall,
      setKey_eq_of_getKey m p.id r hr]
    exact ih m fun p' hp' => h p' (List.mem_cons_of_mem p hp')

theorem reconcileMatrix_idem (s : Settings) (m : Matrix) :
    reconcileMatrix s (reconcileMatrix s m) = reconcileMatrix s m :=
  reconcilePeriods_eq_of_done s.categories s.periods _
    (reconcilePeriods_done s.categories s.periods m)

theorem reconcilePeriods_cellGet_some (cats ps : List Item) (m : Matrix)
    (pid cid : String) (x : Option Int) (h : cellGet m pid cid = some x) :
    cellGet (reconcilePeriods cats ps m) pid cid = some x := by
  induction ps generalizing m with
  | nil => exact h
  | cons p ps ih =>
    rw [reconcilePeriods]
    by_cases hp : p.id = pid
    · subst hp
      cases hrow : getKey m p.id with
      | none =>
        simp only [cellGet, hrow] at h
        exact absurd h (by simp)
      | some r =>
        simp only [cellGet, hrow] at h
        refine ih _ ?_
        simp only [cellGet, getKey_setKey_self]
        exact reconcileRow_getKey_some cats r cid x h
    · refine ih _ ?_
      simp only [cellGet]
      rw [getKey_setKey_ne m p.id pid _ fun e => hp e.symm]
      simp only [cellGet] at h
      exact h

theorem reconcilePeriods_cellGet_none (cats ps : List Item) (m : Matrix)
    (pid cid : String) (h : cellGet m pid cid = none) :
    cellGet (reconcilePeriods cats ps m) pid cid = none
    ∨ cellGet (reconcilePeriods cats ps m) pid cid = some none := by
  induction ps generalizing m with
  | nil => exact Or.inl h
  | cons p ps ih =>
    rw [reconcilePeriods]
    by_cases hp : p.id = pid
    · subst hp
      have hrownone : getKey
          (match getKey m p.id with | some r => r | none => ([] : Row))
          cid = none := by
        cases hrow : getKey m p.id with
        | none => simp [getKey]
        | some r =>
          simp only [cellGet, hrow] at h
          exact h
      rcases reconcileRow_getKey_of_none cats _ cid hrownone with hcase | hcase
      · refine ih _ ?_
        simp only [cellGet, getKey_setKey_self]
        exact hcase
      · refine Or.inr (reconcilePeriods_cellGet_some cats ps _ p.id cid none ?_)
        simp only [cellGet, getKey_setKey_self]
        exact hcase
    · refine ih _ ?_
      simp only [cellGet]
      rw [getKey_setKey_ne m p.id pid _ fun e => hp e.symm]
      simp only [cellGet] at h
      exact h

/-! ## C5: reconciliation is idempotent and never overwrites -/

/-- C5: for every record matrix and settings, reconciliation run twice
equals reconciliation run once; every cell present before (scored or
explicitly null) keeps its exact value; and a cell absent before is, after
reconciliation, either still absent or present as unset — so only missing
(period, category) cells are added, as unset. -/
theorem claim_C5_reconciliation : ∀ (s : Settings) (m : Matrix),
    reconcileMatrix s (reconcileMatrix s m) = reconcileMatrix s m
    ∧ (∀ (p c : String) (x : Option Int), cellGet m p c = some x →
        cellGet (reconcileMatrix s m) p c = some x)
    ∧ (∀ p c : String, cellGet m p c = none →
        cellGet (reconcileMatrix s m) p c = none
        ∨ cellGet (reconcileMatrix s m) p c = some none) := by
  intro s m
  exact ⟨reconcileMatrix_idem s m,
    fun p c x h => reconcilePeriods_cellGet_some s.categories s.periods m p c x h,
    fun p c h => reconcilePeriods_cellGet_none s.categories s.periods m p c h⟩

/-- Witness for C5: a concrete scored cell survives reconciliation
unchanged. -/
theorem claim_C5_reconciliation_witness :
    cellGet
      (reconcileMatrix
        { scaleMax := 3, scaleLabels := [],
          categories := [⟨"c1", "Cat"⟩, ⟨"c2", "Cat2"⟩],
          periods := [⟨"p1", "Per"⟩], goalPoints := 24 }
        [("p1", [("c1", some 2)])]) "p1" "c1" = some (some 2) :=
  (claim_C5_reconciliation
    { scaleMax := 3, scaleLabels := [],
      categories := [⟨"c1", "Cat"⟩, ⟨"c2", "Cat2"⟩],
      periods := [⟨"p1", "Per"⟩], goalPoints := 24 }
    [("p1", [("c1", some 2)])]).2.1 "p1" "c1" (some 2) (by decide)

/-! ## Fresh-matrix lemmas (for C2) -/

theorem mkNullRow_isSome (cs : List Item) (r : Row) (k : String)
    (h : (getKey r k).isSome) : (getKey (mkNullRow cs r) k).isSome := by
  induction cs generalizing r with
  | nil => exact h
  | cons c cs ih => exact ih _ (getKey_setKey_isSome r c.id k none h)

theorem mkNullRow_hasAll (cs : List Item) (r : Row) :
    rowHasAll cs (mkNullRow cs r) := by
  induction cs generalizing r with
  | nil => intro c hc; simp at hc
  | cons c cs ih =>
    intro c' hc'
    rcases List.mem_cons.mp hc' with hc' | hc'
    · subst hc'
      rw [mkNullRow]
      exact mkNullRow_isSome cs _ c'.id (by rw [getKey_setKey_self]; rfl)
    · rw [mkNullRow]
      exact ih _ c' hc'

theorem mkNullRow_values (cs : List Item) (r : Row) (k : String)
    (x : Option Int) (h : getKey (mkNullRow cs r) k = some x) :
    getKey r k = some x ∨ x = none := by
  induction cs generalizing r with
  | nil => exact Or.inl h
  | cons c cs ih =>
    rw [mkNullRow] at h
    rcases ih _ h with h' | h'
    · by_cases hk : k = c.id
      · subst hk
        rw [getKey_setKey_self] at h'
        exact Or.inr (Option.some.inj h').symm
      · rw [getKey_setKey_ne r c.id k none hk] at h'
        exact Or.inl h'
    · exact Or.inr h'

theorem mkNullMatrixAux_preserves_done (cats ps : List Item) (m : Matrix)
    (k : String) (h : ∃ r, getKey m k = some r ∧ rowHasAll cats r) :
    ∃ r, getKey (mkNullMatrixAux cats ps m) k = some r ∧ rowHasAll cats r := by
  induction ps generalizing m with
  | nil => exact h
  | cons p ps ih =>
    rw [mkNullMatrixAux]
    by_cases hp : p.id = k
    · subst hp
      exact ih _ ⟨mkNullRow cats [], by rw [getKey_setKey_self],
        mkNullRow_hasAll cats []⟩
    · obtain ⟨r, hr, hall⟩ := h
      refine ih _ ⟨r, ?_, hall⟩
      rw [getKey_setKey_ne m p.id k _ fun e => hp e.symm]
      exact hr

theorem mkNullMatrixAux_done (cats ps : List Item) (m : Matrix) :
    matrixDone cats ps (mkNullMatrixAux cats ps m) := by
  induction ps generalizing m with
  | nil => intro p hp; simp at hp
  | cons p ps ih =>
    intro p' hp'
    rw [mkNullMatrixAux]
    rcases List.mem_cons.mp hp' with hp' | hp'
    · subst hp'
      exact mkNullMatrixAux_preserves_done cats ps _ p'.id
        ⟨mkNullRow cats [], by rw [getKey_setKey_self],
         mkNullRow_hasAll cats []⟩
    · exact ih _ p' hp'

theorem mkNullMatrixAux_values (cats ps : List Item) (m : Matrix)
    (p c : String) (x : Option Int)
    (h : cellGet (mkNullMatrixAux cats ps m) p c = some x) :
    cellGet m p c = some x ∨ x = none := by
  induction ps generalizing m with
  | nil => exact Or.inl h
  | cons p0 ps ih =>
    rw [mkNullMatrixAux] at h
    rcases ih _ h with h' | h'
    · by_cases hp : p = p0.id
      · subst hp
        simp only [cellGet, getKey_setKey_self] at h'
        rcases mkNullRow_values cats [] c x h' with h'' | h''
        · simp [getKey] at h''
        · exact Or.inr h''
      · simp only [cellGet] at h'
        rw [getKey_setKey_ne m p0.id p _ hp] at h'
        exact Or.inl h'
    · exact Or.inr h'

theorem mkNullMatrix_values (s : Settings) (p c : String) (x : Option Int)
    (h : cellGet (mkNullMatrix s) p c = some x) : x = none := by
  rcases mkNullMatrixAux_values s.categories s.periods [] p c x h with h' | h'
  · simp [cellGet, getKey] at h'
  · exact h'

theorem reconcile_mkNullMatrix (s : Settings) :
    reconcileMatrix s (mkNullMatrix s) = mkNullMatrix s :=
  reconcilePeriods_eq_of_done s.categories s.periods _
    (mkNullMatrixAux_done s.categories s.periods [])

/-! ## C2: what a settings import does to the active record -/

/-- Counterexample to C2: with one period and one category and a scored
cell (p1, c1) = 3, importing a structurally valid settings payload (here
describing the same single period and category) does not preserve the
scored cell — the import rebuilds the matrix with every cell unset, and the
subsequent reconciliation effect adds nothing back. -/
theorem claim_C2_counterexample :
    cellGet
      (AppState.mk ⟨3, [], [⟨"c1", "Cat"⟩], [⟨"p1", "Per"⟩], 24⟩
        [⟨"s1", "S"⟩] (some "s1")
        [("p1", [("c1", some 3)])]).matrix "p1" "c1" = some (some 3)
    ∧ cellGet
        (applyReconcile (applyImportValid
          ⟨3, [], [⟨"c1", "Cat"⟩], [⟨"p1", "Per"⟩], 24⟩
          (AppState.mk ⟨3, [], [⟨"c1", "Cat"⟩], [⟨"p1", "Per"⟩], 24⟩
            [⟨"s1", "S"⟩] (some "s1")
            [("p1", [("c1", some 3)])]))).matrix "p1" "c1"
      ≠ some (some 3) := by
  exact ⟨by decide, by decide⟩

/-- C2 amended: after every successful settings import, the active record's
matrix is rebuilt from scratch to the new settings shape with every cell
unset — previously scored cells are discarded, not preserved — and the §4.2
reconciliation effect that then runs is a no-op on the rebuilt matrix. -/
theorem claim_C2_import_rebuild : ∀ (s : Settings) (st : AppState),
    (applyImportValid s st).matrix = mkNullMatrix s
    ∧ (∀ (p c : String) (x : Option Int),
        cellGet (applyImportValid s st).matrix p c = some x → x = none)
    ∧ applyReconcile (applyImportValid s st) = applyImportValid s st := by
  intro s st
  refine ⟨rfl, ?_, ?_⟩
  · intro p c x h
    exact mkNullMatrix_values s p c x h
  · simp [applyReconcile, applyImportValid, reconcile_mkNullMatrix]

/-- Witness for the amended C2 at a concrete state with a scored cell. -/
theorem claim_C2_import_rebuild_witness :
    applyReconcile (applyImportValid
        ⟨3, [], [⟨"c1", "Cat"⟩], [⟨"p1", "Per"⟩], 24⟩ defaultState)
      = applyImportValid
        ⟨3, [], [⟨"c1", "Cat"⟩], [⟨"p1", "Per"⟩], 24⟩ defaultState
    ∧ (none : Option Int) = none :=
  ⟨(claim_C2_import_rebuild
      ⟨3, [], [⟨"c1", "Cat"⟩], [⟨"p1", "Per"⟩], 24⟩ defaultState).2.2,
   (claim_C2_import_rebuild
      ⟨3, [], [⟨"c1", "Cat"⟩], [⟨"p1", "Per"⟩], 24⟩ defaultState).2.1
     "p1" "c1" none (by decide)⟩

/-! ## C3: invariant R2 -/

/-- Counterexample to C3: from the default state, score (p1, c1) with input
"3" (stored as 3 with scaleMax = 3), then edit scaleMax to "1" — both are
ordinary user operations, so the resulting state is reachable, yet it holds
a stored score 3 greater than the current scaleMax 1: R2 does not hold in
every reachable state. -/
theorem claim_C3_counterexample :
    Reachable (applySetScaleMax 1 (applySetScore "p1" "c1" "3" defaultState))
    ∧ r2Check (applySetScaleMax 1 (applySetScore "p1" "c1" "3" defaultState))
        = false := by
  constructor
  · exact Relation.ReflTransGen.tail
      (Relation.ReflTransGen.tail Relation.ReflTransGen.refl
        (AppStep.score defaultState "p1" "c1" "3"))
      (AppStep.scaleMax _ "1" 1 (by decide))
  · decide

/-- C3 amended: every value `setScore` stores is valid at the time of
storage — unset for non-numeric input, otherwise an integer clamped into
[0, scaleMax] (out-of-range numeric input is clamped, not coerced to
unset); but R2 is not preserved by every operation: lowering scaleMax
leaves previously stored higher scores in place. -/
theorem claim_C3_stored_validity : ∀ (raw : String) (sm : Int),
    0 ≤ sm →
    (parseInt raw = none → storedScore raw sm = none)
    ∧ (storedScore raw sm = none
       ∨ ∃ n : Int, storedScore raw sm = some n ∧ 0 ≤ n ∧ n ≤ sm) := by
  intro raw sm hsm
  constructor
  · intro hp
    by_cases he : raw = "" <;> simp [storedScore, he, hp]
  · by_cases he : raw = ""
    · exact Or.inl (by simp [storedScore, he])
    · cases hp : parseInt raw with
      | none => exact Or.inl (by simp [storedScore, he, hp])
      | some n =>
        exact Or.inr ⟨clamp n 0 sm, by simp [storedScore, he, hp],
          (clamp_bounds n 0 sm hsm).1, (clamp_bounds n 0 sm hsm).2⟩

/-- Witness for the amended C3 at input "5" and scaleMax 3. -/
theorem claim_C3_stored_validity_witness :
    storedScore "5" 3 = none
    ∨ ∃ n : Int, storedScore "5" 3 = some n ∧ 0 ≤ n ∧ n ≤ 3 :=
  (claim_C3_stored_validity "5" 3 (by decide)).2

/-! ## Totals lemmas (for C6) -/

theorem totalsCats_spec (m : Matrix) (pid : String) (sm : Int)
    (cs : List Item) : ∀ t mx : Int,
    totalsCats m pid sm cs (t, mx)
      = (t + (cs.map fun c => (cellScore m pid c.id).getD 0).sum,
         mx + (cs.length : Int) * sm) := by
  induction cs with
  | nil =>
    intro t mx
    simp [totalsCats]
  | cons c cs ih =>
    intro t mx
    rw [totalsCats, ih]
    simp only [List.map_cons, List.sum_cons, List.length_cons, Prod.mk.injEq]
    constructor
    · ring
    · push_cast
      ring

theorem totalsPeriods_spec (s : Settings) (m : Matrix) (ps : List Item) :
    ∀ acc : Int × Int × List (String × (Int × Int)),
    totalsPeriods s m ps acc
      = (acc.1 + (ps.map fun p =>
            (s.categories.map fun c => (cellScore m p.id c.id).getD 0).sum).sum,
         acc.2.1 + (ps.map fun _ =>
            (s.categories.length : Int) * s.scaleMax).sum,
         ps.foldl (fun l p => setKey l p.id
            ((s.categories.map fun c => (cellScore m p.id c.id).getD 0).sum,
             (s.categories.length : Int) * s.scaleMax)) acc.2.2) := by
  induction ps with
  | nil =>
    intro acc
    simp [totalsPeriods]
  | cons p ps ih =>
    intro acc
    rw [totalsPeriods, ih, totalsCats_spec m p.id s.scaleMax s.categories 0 0]
    simp only [List.map_cons, List.sum_cons, List.foldl_cons, zero_add,
      Prod.mk.injEq]
    exact ⟨by ring, by ring, trivial⟩

theorem getKey_foldl_setKey (f : String → Int × Int) (ps : List Item) :
    ∀ (l0 : List (String × (Int × Int))) (k : String),
    ((∃ p ∈ ps, p.id = k) ∨ getKey l0 k = some (f k)) →
    getKey (ps.foldl (fun l p => setKey l p.id (f p.id)) l0) k = some (f k) := by
  induction ps with
  | nil =>
    intro l0 k h
    rcases h with ⟨p, hp, _⟩ | h
    · simp at hp
    · exact h
  | cons p ps ih =>
    intro l0 k h
    rw [List.foldl_cons]
    by_cases hpk : p.id = k
    · subst hpk
      exact ih _ _ (Or.inr (by rw [getKey_setKey_self]))
    · rcases h with ⟨q, hq, hqk⟩ | h
      · rcases List.mem_cons.mp hq with hq | hq
        · subst hq
          exact absurd hqk hpk
        · exact ih _ _ (Or.inl ⟨q, hq, hqk⟩)
      · refine ih _ _ (Or.inr ?_)
        rw [getKey_setKey_ne l0 p.id k _ fun e => hpk e.symm]
        exact h

/-! ## C6: the Derived Totals Calculator -/

/-- C6: for every record matrix and settings, the totals computation yields
periodTotal(p) = sum over categories of the cell score with unset counting
as 0, periodMax(p) = count(categories) × scaleMax, dailyTotal and dailyMax
the sums of those, and percent = round(dailyTotal / dailyMax × 100) when
dailyMax > 0 (else 0); on the 2 × 2 example with scaleMax 3 and scores
{p1c1 = 3, p1c2 = 2, p2c1 = unset, p2c2 = 1} it yields period totals 5/6
and 1/6, daily total 6/12 and percent 50. -/
theorem claim_C6_totals :
    (∀ (s : Settings) (m : Matrix),
      (computeTotals s m).totalPoints
        = (s.periods.map fun p =>
            (s.categories.map fun c => (cellScore m p.id c.id).getD 0).sum).sum
      ∧ (computeTotals s m).maxPoints
        = (s.periods.map fun _ => (s.categories.length : Int) * s.scaleMax).sum
      ∧ (∀ p ∈ s.periods,
          getKey (computeTotals s m).perPeriodTotals p.id
            = some ((s.categories.map fun c =>
                (cellScore m p.id c.id).getD 0).sum,
              (s.categories.length : Int) * s.scaleMax))
      ∧ (computeTotals s m).percent
        = (if 0 < (computeTotals s m).maxPoints
           then mathRound (((computeTotals s m).totalPoints : ℚ)
             / ((computeTotals s m).maxPoints : ℚ) * 100)
           else 0))
    ∧ (computeTotals
        ⟨3, [], [⟨"c1", "C1"⟩, ⟨"c2", "C2"⟩], [⟨"p1", "P1"⟩, ⟨"p2", "P2"⟩], 24⟩
        [("p1", [("c1", some 3), ("c2", some 2)]),
         ("p2", [("c1", none), ("c2", some 1)])]).totalPoints = 6
    ∧ (computeTotals
        ⟨3, [], [⟨"c1", "C1"⟩, ⟨"c2", "C2"⟩], [⟨"p1", "P1"⟩, ⟨"p2", "P2"⟩], 24⟩
        [("p1", [("c1", some 3), ("c2", some 2)]),
         ("p2", [("c1", none), ("c2", some 1)])]).maxPoints = 12
    ∧ (computeTotals
        ⟨3, [], [⟨"c1", "C1"⟩, ⟨"c2", "C2"⟩], [⟨"p1", "P1"⟩, ⟨"p2", "P2"⟩], 24⟩
        [("p1", [("c1", some 3), ("c2", some 2)]),
         ("p2", [("c1", none), ("c2", some 1)])]).perPeriodTotals
      = [("p1", (5, 6)), ("p2", (1, 6))]
    ∧ (computeTotals
        ⟨3, [], [⟨"c1", "C1"⟩, ⟨"c2", "C2"⟩], [⟨"p1", "P1"⟩, ⟨"p2", "P2"⟩], 24⟩
        [("p1", [("c1", some 3), ("c2", some 2)]),
         ("p2", [("c1", none), ("c2", some 1)])]).percent = 50 := by
  have hgen : ∀ (s : Settings) (m : Matrix),
      (computeTotals s m).totalPoints
        = (s.periods.map fun p =>
            (s.categories.map fun c => (cellScore m p.id c.id).getD 0).sum).sum
      ∧ (computeTotals s m).maxPoints
        = (s.periods.map fun _ => (s.categories.length : Int) * s.scaleMax).sum
      ∧ (∀ p ∈ s.periods,
          getKey (computeTotals s m).perPeriodTotals p.id
            = some ((s.categories.map fun c =>
                (cellScore m p.id c.id).getD 0).sum,
              (s.categories.length : Int) * s.scaleMax))
      ∧ (computeTotals s m).percent
        = (if 0 < (computeTotals s m).maxPoints
           then mathRound (((computeTotals s m).totalPoints : ℚ)
             / ((computeTotals s m).maxPoints : ℚ) * 100)
           else 0) := by
    intro s m
    have hspec := totalsPeriods_spec s m s.periods (0, 0, [])
    refine ⟨?_, ?_, ?_, ?_⟩
    · show (totalsPeriods s m s.periods (0, 0, [])).1 = _
      rw [hspec]
      simp
    · show (totalsPeriods s m s.periods (0, 0, [])).2.1 = _
      rw [hspec]
      simp
    · intro p hp
      show getKey (totalsPeriods s m s.periods (0, 0, [])).2.2 p.id = _
      rw [hspec]
      exact getKey_foldl_setKey
        (fun pid => ((s.categories.map fun c =>
            (cellScore m pid c.id).getD 0).sum,
          (s.categories.length : Int) * s.scaleMax))
        s.periods [] p.id (Or.inl ⟨p, hp, rfl⟩)
    · rfl
  refine ⟨hgen, by decide, by decide, by decide, ?_⟩
  have h6 : (computeTotals
      ⟨3, [], [⟨"c1", "C1"⟩, ⟨"c2", "C2"⟩], [⟨"p1", "P1"⟩, ⟨"p2", "P2"⟩], 24⟩
      [("p1", [("c1", some 3), ("c2", some 2)]),
       ("p2", [("c1", none), ("c2", some 1)])]).totalPoints = 6 := by decide
  have h12 : (computeTotals
      ⟨3, [], [⟨"c1", "C1"⟩, ⟨"c2", "C2"⟩], [⟨"p1", "P1"⟩, ⟨"p2", "P2"⟩], 24⟩
      [("p1", [("c1", some 3), ("c2", some 2)]),
       ("p2", [("c1", none), ("c2", some 1)])]).maxPoints = 12 := by decide
  have hpercent := (hgen
      ⟨3, [], [⟨"c1", "C1"⟩, ⟨"c2", "C2"⟩], [⟨"p1", "P1"⟩, ⟨"p2", "P2"⟩], 24⟩
      [("p1", [("c1", some 3), ("c2", some 2)]),
       ("p2", [("c1", none), ("c2", some 1)])]).2.2.2
  rw [h6, h12] at hpercent
  rw [hpercent]
  norm_num [mathRound]

/-- Witness for C6, instantiating the per-period conjunct at period p1 of
the 2 × 2 example. -/
theorem claim_C6_totals_witness :
    getKey (computeTotals
        ⟨3, [], [⟨"c1", "C1"⟩, ⟨"c2", "C2"⟩], [⟨"p1", "P1"⟩, ⟨"p2", "P2"⟩], 24⟩
        [("p1", [("c1", some 3), ("c2", some 2)]),
         ("p2", [("c1", none), ("c2", some 1)])]).perPeriodTotals "p1"
      = some (((([⟨"c1", "C1"⟩, ⟨"c2", "C2"⟩] : List Item).map fun c =>
          (cellScore [("p1", [("c1", some 3), ("c2", some 2)]),
            ("p2", [("c1", none), ("c2", some 1)])] "p1" c.id).getD 0).sum),
          (([⟨"c1", "C1"⟩, ⟨"c2", "C2"⟩] : List Item).length : Int) * 3) :=
  (claim_C6_totals.1
    ⟨3, [], [⟨"c1", "C1"⟩, ⟨"c2", "C2"⟩], [⟨"p1", "P1"⟩, ⟨"p2", "P2"⟩], 24⟩
    [("p1", [("c1", some 3), ("c2", some 2)]),
     ("p2", [("c1", none), ("c2", some 1)])]).2.2.1
    ⟨"p1", "P1"⟩ (by decide)

/-! ## C1: what the import actually validates -/

/-- Counterexample to C1: the payload `{"categories": [], "periods": []}`
fails the spec's structural validation (it has no scale and no goalPoints
field), yet the import raises no user-visible error and replaces the prior
Settings with the malformed payload (and resets the active record's
matrix): the state is not left unchanged. -/
theorem claim_C1_counterexample :
    specRequiredShape
      (JValue.obj [("categories", JValue.arr []), ("periods", JValue.arr [])])
      = false
    ∧ (jsImportSettings
        (some (JValue.obj
          [("categories", JValue.arr []), ("periods", JValue.arr [])]))
        (JState.mk (encodeSettings defaultSettings)
          [("p1", [("c1", some 2)])])).2 = false
    ∧ (jsImportSettings
        (some (JValue.obj
          [("categories", JValue.arr []), ("periods", JValue.arr [])]))
        (JState.mk (encodeSettings defaultSettings)
          [("p1", [("c1", some 2)])])).1.settings
      ≠ (JState.mk (encodeSettings defaultSettings)
          [("p1", [("c1", some 2)])]).settings := by
  refine ⟨rfl, rfl, ?_⟩
  intro h
  have h2 := congrArg (fun v => (getField v "scaleMax").isSome) h
  exact Bool.noConfusion h2

/-- C1 amended: the import validates only that the payload parses as JSON
and is a non-null value of JS type "object" (any object or array); exactly
on that failure it surfaces the alert and leaves the prior state unchanged.
An object payload lacking the required fields is not rejected: Settings are
replaced by the malformed payload (with an alert only if the matrix rebuild
from payload.periods / payload.categories throws). -/
theorem claim_C1_import_validation : ∀ st : JState,
    jsImportSettings none st = (st, true)
    ∧ (∀ v : JValue, importCheckPasses v = false →
        jsImportSettings (some v) st = (st, true)) := by
  intro st
  refine ⟨rfl, ?_⟩
  intro v hv
  simp [jsImportSettings, hv]

/-- Witness for the amended C1: an unparseable file and a string payload
are both rejected without touching the state. -/
theorem claim_C1_import_validation_witness :
    jsImportSettings none (JState.mk JValue.null [])
      = (JState.mk JValue.null [], true)
    ∧ jsImportSettings (some (JValue.str "x")) (JState.mk JValue.null [])
      = (JState.mk JValue.null [], true) :=
  ⟨(claim_C1_import_validation (JState.mk JValue.null [])).1,
   (claim_C1_import_validation (JState.mk JValue.null [])).2
     (JValue.str "x") rfl⟩

/-! ## Round-trip lemmas (for C8) -/

theorem decodeItem_encodeItem (e : Item) :
    decodeItem (encodeItem e) = some e := rfl

theorem decodeItems_encode (l : List Item) :
    decodeItems (l.map encodeItem) = some l := by
  induction l with
  | nil => rfl
  | cons e l ih =>
    rw [List.map_cons, decodeItems, decodeItem_encodeItem, ih]

theorem decodeLabels_encode (l : List (String × String)) :
    decodeLabels (l.map fun kv => (kv.1, JValue.str kv.2)) = some l := by
  induction l with
  | nil => rfl
  | cons kv l ih =>
    obtain ⟨k, v⟩ := kv
    rw [List.map_cons, decodeLabels, ih]

theorem decodeSettings_encodeSettings (s : Settings) :
    decodeSettings (encodeSettings s) = some s := by
  have h1 : getField (encodeSettings s) "scaleMax"
      = some (JValue.num s.scaleMax) := by
    simp [encodeSettings, getField, getKey]
  have h2 : getField (encodeSettings s) "scaleLabels"
      = some (JValue.obj (s.scaleLabels.map fun kv => (kv.1, .str kv.2))) := by
    simp [encodeSettings, getField, getKey]
  have h3 : getField (encodeSettings s) "categories"
      = some (JValue.arr (s.categories.map encodeItem)) := by
    simp [encodeSettings, getField, getKey]
  have h4 : getField (encodeSettings s) "periods"
      = some (JValue.arr (s.periods.map encodeItem)) := by
    simp [encodeSettings, getField, getKey]
  have h5 : getField (encodeSettings s) "goalPoints"
      = some (JValue.num s.goalPoints) := by
    simp [encodeSettings, getField, getKey]
  rw [decodeSettings, h1, h2, h3, h4, h5]
  simp only [decodeLabels_encode, decodeItems_encode]

theorem jsIdKey_encodeItem (e : Item) : jsIdKey (encodeItem e) = some e.id :=
  rfl

theorem jsRowBuild_encode (cs : List Item) : ∀ r : Row,
    jsRowBuild (cs.map encodeItem) r = some (mkNullRow cs r) := by
  induction cs with
  | nil => intro r; rfl
  | cons c cs ih =>
    intro r
    rw [List.map_cons, jsRowBuild, jsIdKey_encodeItem, mkNullRow]
    exact ih _

theorem jsRebuild_encode (cs : List Item) (ps : List Item) : ∀ m : Matrix,
    jsRebuild (cs.map encodeItem) (ps.map encodeItem) m
      = some (mkNullMatrixAux cs ps m) := by
  induction ps with
  | nil => intro m; rfl
  | cons p ps ih =>
    intro m
    rw [List.map_cons, jsRebuild, jsIdKey_encodeItem,
      jsRowBuild_encode cs [], mkNullMatrixAux]
    exact ih _

theorem rebuildFromPayload_encode (s : Settings) :
    rebuildFromPayload (encodeSettings s) = some (mkNullMatrix s) := by
  have hper : getField (encodeSettings s) "periods"
      = some (JValue.arr (s.periods.map encodeItem)) := by
    simp [encodeSettings, getField, getKey]
  have hcat : getField (encodeSettings s) "categories"
      = some (JValue.arr (s.categories.map encodeItem)) := by
    simp [encodeSettings, getField, getKey]
  cases hps : s.periods with
  | nil =>
    rw [rebuildFromPayload, hper, hps]
    rw [mkNullMatrix, hps]
    rfl
  | cons p pt =>
    rw [rebuildFromPayload, hper, hps, List.map_cons, hcat, mkNullMatrix, hps]
    exact jsRebuild_encode s.categories (p :: pt) []

/-! ## C8: settings export/import round-trip -/

/-- C8: for every settings value, the exported settings JSON imports back
successfully (no alert), the stored settings equal the exported JSON tree,
and that tree decodes back to a settings value deep-equal to the original;
the import also rebuilds the active matrix to the all-unset shape of the
imported settings. -/
theorem claim_C8_roundtrip : ∀ (s : Settings) (st : JState),
    decodeSettings (encodeSettings s) = some s
    ∧ jsImportSettings (some (encodeSettings s)) st
        = (JState.mk (encodeSettings s) (mkNullMatrix s), false) := by
  intro s st
  refine ⟨decodeSettings_encodeSettings s, ?_⟩
  have hcheck : importCheckPasses (encodeSettings s) = true := rfl
  simp only [jsImportSettings, hcheck, if_true, rebuildFromPayload_encode s]

end BehaviorRubric
